import Mathlib

/-!
Verification of the uTP packet codec (`src/packet.rs` of rust-utp).

The embedding models byte buffers as `List Nat` (each entry a byte value,
bounded by 256 where a claim needs it, via the predicate `bytesOk`).
Multi-byte header fields are represented by their logical big-endian
numeric value: in the Rust source each field is stored in network byte
order and every getter applies `from_be`, so the value the program ever
observes is exactly the big-endian interpretation of the wire bytes,
which is what the fields below hold.  `PacketHeader.bytes` serialises the
fields back to wire order, which is what the source's byte-level
reinterpretation of the (network-order) struct produces.

The extension-chain walk of `Packet::decode` is a `while` loop whose index
strictly increases each iteration; it is embedded as the structurally
recursive `decodeExts` with a fuel argument, called with fuel
`buf.length` (every iteration of the source loop requires
`idx < buf.len()` and consumes at least one buffer byte, so this fuel is
never exhausted before the loop would exit on its own; the fuel-zero case
carries the same post-loop pending-extension check as a normal exit).
-/

/-- Error type of `Packet::decode` (`enum ParseError`). -/
inductive ParseError where
  | InvalidExtensionLength
  | InvalidPacketLength
  | UnsupportedVersion
deriving DecidableEq, Repr

/-- The five packet types (`enum PacketType`), discriminants 0 to 4. -/
inductive PacketType where
  | Data
  | Fin
  | State
  | Reset
  | Syn
deriving DecidableEq, Repr

/-- Discriminant of a `PacketType` (its `as u8` value). -/
def PacketType.toNat : PacketType → Nat
  | .Data => 0
  | .Fin => 1
  | .State => 2
  | .Reset => 3
  | .Syn => 4

/-- Checked inverse of the packet-type discriminant: the nibble values 5
through 15 correspond to no `PacketType` variant. -/
def PacketType.fromNat : Nat → Option PacketType
  | 0 => some .Data
  | 1 => some .Fin
  | 2 => some .State
  | 3 => some .Reset
  | 4 => some .Syn
  | _ => none

/-- Extension types (`enum ExtensionType`); only SelectiveAck = 1 exists. -/
inductive ExtensionType where
  | SelectiveAck
deriving DecidableEq, Repr

/-- Discriminant of an `ExtensionType` (its `as u8` value). -/
def ExtensionType.toNat : ExtensionType → Nat
  | .SelectiveAck => 1

/-- An extension record (`struct Extension`): a type and its raw data. -/
structure Extension where
  ty : ExtensionType
  data : List Nat
deriving DecidableEq, Repr

/-- Length of an extension, `Extension::len`: one length byte plus data. -/
def Extension.len (e : Extension) : Nat :=
  1 + e.data.length

/-- Wire bytes of an extension, `Extension::to_bytes`: the length byte
(`data.len() as u8`, hence reduced mod 256) followed by the data. -/
def Extension.to_bytes (e : Extension) : List Nat :=
  e.data.length % 256 :: e.data

/-- The 20-byte packet header (`struct PacketHeader`).  Each field holds
the logical (big-endian-decoded) value; see the module comment. -/
structure PacketHeader where
  type_ver : Nat
  extension : Nat
  connection_id : Nat
  timestamp_microseconds : Nat
  timestamp_difference_microseconds : Nat
  wnd_size : Nat
  seq_nr : Nat
  ack_nr : Nat
deriving DecidableEq, Repr

/-- Big-endian assembly of two bytes into a 16-bit value. -/
def be16 (a b : Nat) : Nat := a * 256 + b

/-- Big-endian assembly of four bytes into a 32-bit value. -/
def be32 (a b c d : Nat) : Nat := ((a * 256 + b) * 256 + c) * 256 + d

/-- Big-endian serialisation of a 16-bit value into two bytes. -/
def be16bytes (v : Nat) : List Nat := [v / 256 % 256, v % 256]

/-- Big-endian serialisation of a 32-bit value into four bytes. -/
def be32bytes (v : Nat) : List Nat :=
  [v / 16777216 % 256, v / 65536 % 256, v / 256 % 256, v % 256]

/-- Read a packet header from a buffer, `PacketHeader::decode`; the caller
guarantees at least 20 bytes (out-of-range reads are modelled by the
default 0 of `getD`, and never occur under the caller's length check). -/
def PacketHeader.decode (buf : List Nat) : PacketHeader :=
  { type_ver := buf.getD 0 0
    extension := buf.getD 1 0
    connection_id := be16 (buf.getD 2 0) (buf.getD 3 0)
    timestamp_microseconds :=
      be32 (buf.getD 4 0) (buf.getD 5 0) (buf.getD 6 0) (buf.getD 7 0)
    timestamp_difference_microseconds :=
      be32 (buf.getD 8 0) (buf.getD 9 0) (buf.getD 10 0) (buf.getD 11 0)
    wnd_size :=
      be32 (buf.getD 12 0) (buf.getD 13 0) (buf.getD 14 0) (buf.getD 15 0)
    seq_nr := be16 (buf.getD 16 0) (buf.getD 17 0)
    ack_nr := be16 (buf.getD 18 0) (buf.getD 19 0) }

/-- Version nibble, `PacketHeader::get_version`: `type_ver & 0x0F`. -/
def PacketHeader.get_version (h : PacketHeader) : Nat :=
  h.type_ver % 16

/-- Packet type of a header, `PacketHeader::get_type`.  The source runs
`unsafe { transmute(self.type_ver >> 4) }`: for nibbles 0 to 4 this yields
the corresponding variant; for 5 to 15 there is no variant at all (the
transmute is undefined and no error is reported), modelled as `none`. -/
def PacketHeader.get_type (h : PacketHeader) : Option PacketType :=
  PacketType.fromNat (h.type_ver / 16 % 16)

/-- Wire bytes of a header, `PacketHeader::bytes` (the source exposes the
network-byte-order struct memory directly; field by field this is the
big-endian serialisation of each logical value at its fixed offset). -/
def PacketHeader.bytes (h : PacketHeader) : List Nat :=
  h.type_ver % 256 :: h.extension % 256 ::
    (be16bytes h.connection_id ++
      be32bytes h.timestamp_microseconds ++
      be32bytes h.timestamp_difference_microseconds ++
      be32bytes h.wnd_size ++
      be16bytes h.seq_nr ++
      be16bytes h.ack_nr)

/-- A packet (`struct Packet`): header, extension list, payload. -/
structure Packet where
  header : PacketHeader
  extensions : List Extension
  payload : List Nat
deriving DecidableEq, Repr

/-- Construct a fresh packet, `Packet::new`: type Data, version 1, all
other fields zero, no extensions, no payload. -/
def Packet.new : Packet :=
  { header :=
      { type_ver := PacketType.Data.toNat * 16 + 1
        extension := 0
        connection_id := 0
        timestamp_microseconds := 0
        timestamp_difference_microseconds := 0
        wnd_size := 0
        seq_nr := 0
        ack_nr := 0 }
    extensions := []
    payload := [] }

/-- Append a SelectiveAck extension, `Packet::set_sack`.  The source
pushes the extension and then runs
`self.header.extension |= ExtensionType::SelectiveAck as u8`, a bitwise
OR into the existing extension byte (not an assignment). -/
def Packet.set_sack (p : Packet) (bv : List Nat) : Packet :=
  { p with
      extensions := p.extensions ++ [{ ty := .SelectiveAck, data := bv }]
      header := { p.header with
                    extension := Nat.lor p.header.extension ExtensionType.SelectiveAck.toNat } }

/-- Type discriminant of the first extension of a list, or 0 if none
(this is what `Packet::bytes` writes as each record's next-type byte,
via `extensions.peek()`). -/
def headKind : List Extension → Nat
  | [] => 0
  | e :: _ => e.ty.toNat

/-- Wire bytes of the extension chain, as emitted by the loop in
`Packet::bytes`: for each extension, the type of the next extension
(0 if it is the last), then its `to_bytes` (length byte and data). -/
def extChainBytes : List Extension → List Nat
  | [] => []
  | e :: rest => headKind rest :: e.to_bytes ++ extChainBytes rest

/-- Serialise a packet, `Packet::bytes`: header, extension chain,
payload, in that order. -/
def Packet.bytes (p : Packet) : List Nat :=
  p.header.bytes ++ extChainBytes p.extensions ++ p.payload

/-- Length of a packet's encoding, `Packet::len`: the extensions fold
(each contributing `ext.len() + 1`), plus header size plus payload. -/
def Packet.len (p : Packet) : Nat :=
  20 + p.payload.length +
    p.extensions.foldl (fun acc e => acc + e.len + 1) 0

/-- The extension-chain walk of `Packet::decode` (the `while` loop at
lines 300-330 plus the post-loop pending check).  `idx` is the read
position, `kind` the type of the record about to be read, `acc` the
extensions captured so far.  Fuel makes the loop structurally recursive;
the fuel-zero case performs the same pending-extension check as a normal
loop exit and is reached only when `idx` passed the end of the buffer
(see the module comment). -/
def decodeExts (buf : List Nat) :
    Nat → Nat → Nat → List Extension → Except ParseError (List Extension × Nat)
  | 0, idx, kind, acc =>
    if kind ≠ 0 then .error .InvalidPacketLength else .ok (acc, idx)
  | fuel + 1, idx, kind, acc =>
    if idx < buf.length ∧ kind ≠ 0 then
      if buf.length < idx + 2 then .error .InvalidPacketLength
      else
        let len := buf.getD (idx + 1) 0
        if len = 0 ∨ len % 4 ≠ 0 ∨ buf.length < idx + 2 + len then
          .error .InvalidExtensionLength
        else
          let acc' :=
            if kind = ExtensionType.SelectiveAck.toNat then
              acc ++ [{ ty := .SelectiveAck, data := (buf.drop (idx + 2)).take len }]
            else acc
          decodeExts buf fuel (idx + len + 2) (buf.getD idx 0) acc'
    else if kind ≠ 0 then .error .InvalidPacketLength else .ok (acc, idx)

/-- True when every extension record visited by the chain walk has a
recognised type (SelectiveAck); branches on which the walk fails are
irrelevant and yield true.  Mirrors the branching of `decodeExts`. -/
def allKnown (buf : List Nat) : Nat → Nat → Nat → Bool
  | 0, _, _ => true
  | fuel + 1, idx, kind =>
    if idx < buf.length ∧ kind ≠ 0 then
      if buf.length < idx + 2 then true
      else
        let len := buf.getD (idx + 1) 0
        if len = 0 ∨ len % 4 ≠ 0 ∨ buf.length < idx + 2 + len then true
        else decide (kind = ExtensionType.SelectiveAck.toNat) &&
          allKnown buf fuel (idx + len + 2) (buf.getD idx 0)
    else true

/-- Decode a byte buffer into a packet, `Packet::decode`: length floor,
header read, version gate, the header-sized-with-declared-extension
special case, the chain walk, then the remaining bytes as payload. -/
def Packet.decode (buf : List Nat) : Except ParseError Packet :=
  if buf.length < 20 then .error .InvalidPacketLength
  else if (PacketHeader.decode buf).get_version ≠ 1 then .error .UnsupportedVersion
  else if buf.length = 20 ∧ (PacketHeader.decode buf).extension ≠ 0 then
    .error .InvalidExtensionLength
  else
    match decodeExts buf buf.length 20 (PacketHeader.decode buf).extension [] with
    | .error e => .error e
    | .ok (exts, idx) =>
      .ok { header := PacketHeader.decode buf, extensions := exts, payload := buf.drop idx }

/-- All entries of a buffer are byte values. -/
def bytesOk (l : List Nat) : Prop :=
  ∀ b ∈ l, b < 256

instance (l : List Nat) : Decidable (bytesOk l) :=
  decidable_of_iff (∀ b ∈ l, b < 256) Iff.rfl

instance {ε α : Type} [DecidableEq ε] [DecidableEq α] : DecidableEq (Except ε α)
  | .ok a, .ok b => decidable_of_iff (a = b) (by simp)
  | .error a, .error b => decidable_of_iff (a = b) (by simp)
  | .ok _, .error _ => isFalse (by simp)
  | .error _, .ok _ => isFalse (by simp)

example : Packet.decode [] = .error .InvalidPacketLength := by decide

example :
    Packet.decode [0x21, 0x00, 0x41, 0xa8, 0x99, 0x2f, 0xd0, 0x2a, 0x9f, 0x4a,
      0x26, 0x21, 0x00, 0x10, 0x00, 0x00, 0x3a, 0xf2, 0x6c, 0x79] =
    .ok { header :=
            { type_ver := 0x21, extension := 0, connection_id := 16808
              timestamp_microseconds := 2570047530
              timestamp_difference_microseconds := 2672436769
              wnd_size := 1048576, seq_nr := 15090, ack_nr := 27769 }
          extensions := [], payload := [] } := by decide

example :
    Packet.decode [0x21, 0x01, 0x41, 0xa7, 0, 0, 0, 0, 0, 0,
      0, 0, 0, 0, 0x05, 0xdc, 0xab, 0x53, 0x3a, 0xf5,
      0x00, 0x04, 0, 0, 0, 0] =
    .ok { header :=
            { type_ver := 0x21, extension := 1, connection_id := 16807
              timestamp_microseconds := 0
              timestamp_difference_microseconds := 0
              wnd_size := 1500, seq_nr := 43859, ack_nr := 15093 }
          extensions := [{ ty := .SelectiveAck, data := [0, 0, 0, 0] }]
          payload := [] } := by decide

/-- Entries of a byte buffer are below 256. -/
lemma bytesOk.getD_lt (l : List Nat) (hb : bytesOk l) (i : Nat) (h : i < l.length) :
    l.getD i 0 < 256 := by
  rw [List.getD_eq_getElem l 0 h]
  exact hb _ (List.getElem_mem h)

/-- A prefix of a list, written out through `getD`. -/
lemma take_eq_map_range (n : Nat) (l : List Nat) (h : n ≤ l.length) :
    l.take n = (List.range n).map (fun i => l.getD i 0) := by
  induction n generalizing l with
  | zero => simp
  | succ m ih =>
    cases l with
    | nil => simp at h
    | cons a t =>
      rw [List.take_succ_cons, List.range_succ_eq_map, List.map_cons, List.map_map]
      have ht : t.take m = (List.range m).map (fun i => t.getD i 0) := by
        refine ih t ?h
        simpa using h
      rw [ht]
      rfl

/-- C7: every buffer shorter than 20 bytes, the empty buffer included, is
rejected by `Packet::decode` with `InvalidPacketLength`. -/
theorem decode_short_fails (buf : List Nat) (h : buf.length < 20) :
    Packet.decode buf = .error .InvalidPacketLength := by
  unfold Packet.decode
  rw [if_pos h]

theorem decode_short_fails_witness :
    ([] : List Nat).length < 20 ∧
      Packet.decode [] = .error .InvalidPacketLength :=
  ⟨by decide, decode_short_fails [] (by decide)⟩

/-- C8 (amended): every buffer of length at least 20 whose first byte's
low nibble is not 1 is rejected with `UnsupportedVersion` (shorter
buffers are rejected by the length floor first). -/
theorem decode_bad_version (buf : List Nat) (h20 : 20 ≤ buf.length)
    (hv : buf.getD 0 0 % 16 ≠ 1) :
    Packet.decode buf = .error .UnsupportedVersion := by
  unfold Packet.decode
  rw [if_neg (by omega)]
  rw [if_pos (show (PacketHeader.decode buf).get_version ≠ 1 from hv)]

theorem decode_bad_version_witness :
    20 ≤ ([2, 0, 0, 0, 0, 0, 0, 0, 0, 0, 0, 0, 0, 0, 0, 0, 0, 0, 0, 0] : List Nat).length ∧
      ([2, 0, 0, 0, 0, 0, 0, 0, 0, 0, 0, 0, 0, 0, 0, 0, 0, 0, 0, 0] : List Nat).getD 0 0 % 16 ≠ 1 ∧
      Packet.decode [2, 0, 0, 0, 0, 0, 0, 0, 0, 0, 0, 0, 0, 0, 0, 0, 0, 0, 0, 0] =
        .error .UnsupportedVersion :=
  ⟨by decide, by decide,
    decode_bad_version [2, 0, 0, 0, 0, 0, 0, 0, 0, 0, 0, 0, 0, 0, 0, 0, 0, 0, 0, 0]
      (by decide) (by decide)⟩

/-- C8 (counterexample): a one-byte buffer whose low nibble is not 1 is
rejected with `InvalidPacketLength`, not `UnsupportedVersion` — the
length floor fires before the version gate. -/
theorem decode_bad_version_counterexample :
    Packet.decode [2] = .error .InvalidPacketLength ∧
      Packet.decode [2] ≠ .error .UnsupportedVersion := by decide

/-- C2: `Packet::decode` is total — on every byte buffer it returns
either a packet or exactly one of the three `ParseError` values. -/
theorem decode_total (buf : List Nat) :
    (∃ p, Packet.decode buf = .ok p) ∨
      Packet.decode buf = .error .InvalidPacketLength ∨
      Packet.decode buf = .error .InvalidExtensionLength ∨
      Packet.decode buf = .error .UnsupportedVersion := by
  cases h : Packet.decode buf with
  | ok p => exact .inl ⟨p, rfl⟩
  | error e => cases e with
    | InvalidExtensionLength => exact .inr (.inr (.inl rfl))
    | InvalidPacketLength => exact .inr (.inl rfl)
    | UnsupportedVersion => exact .inr (.inr (.inr rfl))

/-- C3: for every header whose type nibble is 5 through 15 there is no
`PacketType` variant at all; `PacketHeader::get_type` produces no defined
value and no error (the source's unchecked transmute is undefined there,
modelled as `none`). -/
theorem get_type_out_of_range_undefined (h : PacketHeader)
    (hn : 5 ≤ h.type_ver / 16 % 16) : h.get_type = none := by
  unfold PacketHeader.get_type
  have h16 : h.type_ver / 16 % 16 < 16 := Nat.mod_lt _ (by omega)
  interval_cases hi : (h.type_ver / 16 % 16) <;> first | omega | rfl

theorem get_type_out_of_range_undefined_witness :
    5 ≤ (PacketHeader.mk 81 0 0 0 0 0 0 0).type_ver / 16 % 16 ∧
      PacketHeader.get_type (PacketHeader.mk 81 0 0 0 0 0 0 0) = none :=
  ⟨by decide, get_type_out_of_range_undefined (PacketHeader.mk 81 0 0 0 0 0 0 0) (by decide)⟩

/-- Folding the length accumulator over extensions measures exactly the
chain bytes emitted for them. -/
lemma foldl_len_eq (es : List Extension) :
    ∀ n : Nat, es.foldl (fun acc e => acc + e.len + 1) n = n + (extChainBytes es).length := by
  induction es with
  | nil => intro n; simp [extChainBytes]
  | cons e es ih =>
    intro n
    simp only [List.foldl_cons, extChainBytes]
    rw [ih]
    simp [Extension.to_bytes, Extension.len]
    omega

/-- C9: for every packet, the byte sequence produced by `Packet::bytes`
has exactly the length reported by `Packet::len`. -/
theorem bytes_length_eq_len (p : Packet) : (Packet.bytes p).length = p.len := by
  unfold Packet.bytes Packet.len
  rw [foldl_len_eq p.extensions 0]
  simp [PacketHeader.bytes, be16bytes, be32bytes]
  omega

/-- The buffer of the C4 failing input: version 1, extension byte 4 (an
unrecognised type), one well-formed skipped record. -/
def c4buf : List Nat :=
  [1, 4, 0, 0, 0, 0, 0, 0, 0, 0, 0, 0, 0, 0, 0, 0, 0, 0, 0, 0, 0, 4, 0, 0, 0, 0]

/-- The packet `Packet::decode` produces from `c4buf`. -/
def c4pkt : Packet :=
  { header := PacketHeader.mk 1 4 0 0 0 0 0 0, extensions := [], payload := [] }

/-- C4: on the packet decoded from `c4buf` (extension byte 4, no
extensions), `set_sack` with a 4-byte bitmap leaves the extension byte at
4 OR 1 = 5, while the type id of the first (and only) extension in the
resulting chain is 1 — the field is OR-ed, not assigned. -/
theorem set_sack_or_bug :
    Packet.decode c4buf = .ok c4pkt ∧
      (c4pkt.set_sack [0, 0, 0, 0]).header.extension = 5 ∧
      headKind (c4pkt.set_sack [0, 0, 0, 0]).extensions = 1 ∧
      (5 : Nat) ≠ 1 := by decide

/-- C5: classification of the errors raised by the extension-chain walk.
First, on a version-1 buffer of exactly 20 bytes with a declared
extension, decode fails with `InvalidExtensionLength`.  Second, inside
the walk, fewer than 2 remaining bytes for a next-type/length pair gives
`InvalidPacketLength`.  Third, exiting the walk with a non-zero pending
kind gives `InvalidPacketLength`.  Fourth, a record length byte that is
zero, not a multiple of 4, or reading past the buffer end gives
`InvalidExtensionLength`. -/
theorem decode_error_classification :
    (∀ buf : List Nat, 20 ≤ buf.length → buf.getD 0 0 % 16 = 1 → buf.length = 20 →
        buf.getD 1 0 ≠ 0 → Packet.decode buf = .error .InvalidExtensionLength)
    ∧ (∀ (buf : List Nat) (fuel idx kind : Nat) (acc : List Extension),
        idx < buf.length → kind ≠ 0 → buf.length < idx + 2 →
        decodeExts buf (fuel + 1) idx kind acc = .error .InvalidPacketLength)
    ∧ (∀ (buf : List Nat) (fuel idx kind : Nat) (acc : List Extension),
        buf.length ≤ idx → kind ≠ 0 →
        decodeExts buf fuel idx kind acc = .error .InvalidPacketLength)
    ∧ (∀ (buf : List Nat) (fuel idx kind : Nat) (acc : List Extension),
        idx < buf.length → kind ≠ 0 → idx + 2 ≤ buf.length →
        (buf.getD (idx + 1) 0 = 0 ∨ buf.getD (idx + 1) 0 % 4 ≠ 0 ∨
          buf.length < idx + 2 + buf.getD (idx + 1) 0) →
        decodeExts buf (fuel + 1) idx kind acc = .error .InvalidExtensionLength) := by
  refine ⟨?one, ?two, ?three, ?four⟩
  case one =>
    intro buf h20 hv h0 hext
    unfold Packet.decode
    rw [if_neg (by omega)]
    rw [if_neg (show ¬((PacketHeader.decode buf).get_version ≠ 1) from not_not_intro hv)]
    rw [if_pos (show buf.length = 20 ∧ (PacketHeader.decode buf).extension ≠ 0 from ⟨h0, hext⟩)]
  case two =>
    intro buf fuel idx kind acc h1 h2 h3
    simp only [decodeExts]
    rw [if_pos ⟨h1, h2⟩, if_pos h3]
  case three =>
    intro buf fuel idx kind acc h1 h2
    cases fuel with
    | zero => simp only [decodeExts]; rw [if_pos h2]
    | succ f =>
      simp only [decodeExts]
      rw [if_neg (fun hc => absurd hc.1 (by omega)), if_pos h2]
  case four =>
    intro buf fuel idx kind acc h1 h2 h3 h4
    simp only [decodeExts]
    rw [if_pos ⟨h1, h2⟩, if_neg (by omega), if_pos h4]

theorem decode_error_classification_witness :
    (20 ≤ ([1, 1, 0, 0, 0, 0, 0, 0, 0, 0, 0, 0, 0, 0, 0, 0, 0, 0, 0, 0] : List Nat).length ∧
      Packet.decode [1, 1, 0, 0, 0, 0, 0, 0, 0, 0, 0, 0, 0, 0, 0, 0, 0, 0, 0, 0] =
        .error .InvalidExtensionLength) ∧
    ((20 : Nat) < ([1, 1, 0, 0, 0, 0, 0, 0, 0, 0, 0, 0, 0, 0, 0, 0, 0, 0, 0, 0, 9] : List Nat).length ∧
      decodeExts [1, 1, 0, 0, 0, 0, 0, 0, 0, 0, 0, 0, 0, 0, 0, 0, 0, 0, 0, 0, 9] 1 20 1 [] =
        .error .InvalidPacketLength) ∧
    (([] : List Nat).length ≤ 5 ∧
      decodeExts [] 0 5 1 [] = .error .InvalidPacketLength) ∧
    ((20 : Nat) + 2 ≤ ([1, 1, 0, 0, 0, 0, 0, 0, 0, 0, 0, 0, 0, 0, 0, 0, 0, 0, 0, 0, 0, 3] : List Nat).length ∧
      decodeExts [1, 1, 0, 0, 0, 0, 0, 0, 0, 0, 0, 0, 0, 0, 0, 0, 0, 0, 0, 0, 0, 3] 1 20 1 [] =
        .error .InvalidExtensionLength) :=
  ⟨⟨by decide,
      decode_error_classification.1 _ (by decide) (by decide) (by decide) (by decide)⟩,
    ⟨by decide,
      decode_error_classification.2.1 _ 0 20 1 [] (by decide) (by decide) (by decide)⟩,
    ⟨by decide,
      decode_error_classification.2.2.1 [] 0 5 1 [] (by decide) (by decide)⟩,
    ⟨by decide,
      decode_error_classification.2.2.2 _ 0 20 1 [] (by decide) (by decide) (by decide)
        (by decide)⟩⟩

/-- C6: one step of the chain walk on a well-formed record.  When the
pending kind is unrecognised, the record's bytes are consumed (the index
advances past them and the next kind is read) but no Extension is
appended; when the kind is SelectiveAck, the same advance happens and the
captured extension is appended at the end (wire order). -/
theorem decode_skips_unknown (buf : List Nat) (fuel idx kind : Nat) (acc : List Extension)
    (h1 : idx < buf.length) (h2 : kind ≠ 0) (h3 : idx + 2 ≤ buf.length)
    (h4 : buf.getD (idx + 1) 0 ≠ 0) (h5 : buf.getD (idx + 1) 0 % 4 = 0)
    (h6 : idx + 2 + buf.getD (idx + 1) 0 ≤ buf.length) :
    (kind ≠ ExtensionType.SelectiveAck.toNat →
      decodeExts buf (fuel + 1) idx kind acc =
        decodeExts buf fuel (idx + buf.getD (idx + 1) 0 + 2) (buf.getD idx 0) acc)
    ∧ (kind = ExtensionType.SelectiveAck.toNat →
      decodeExts buf (fuel + 1) idx kind acc =
        decodeExts buf fuel (idx + buf.getD (idx + 1) 0 + 2) (buf.getD idx 0)
          (acc ++ [{ ty := .SelectiveAck
                     data := (buf.drop (idx + 2)).take (buf.getD (idx + 1) 0) }])) := by
  constructor <;> intro hk <;>
    · simp only [decodeExts]
      rw [if_pos ⟨h1, h2⟩, if_neg (by omega), if_neg (by omega)]
      simp [hk]

theorem decode_skips_unknown_witness :
    ((20 : Nat) < ([1, 5, 0, 0, 0, 0, 0, 0, 0, 0, 0, 0, 0, 0, 0, 0, 0, 0, 0, 0, 0, 4, 7, 7, 7, 7] : List Nat).length ∧
      ([1, 5, 0, 0, 0, 0, 0, 0, 0, 0, 0, 0, 0, 0, 0, 0, 0, 0, 0, 0, 0, 4, 7, 7, 7, 7] : List Nat).getD 21 0 = 4 ∧
      decodeExts [1, 5, 0, 0, 0, 0, 0, 0, 0, 0, 0, 0, 0, 0, 0, 0, 0, 0, 0, 0, 0, 4, 7, 7, 7, 7] 1 20 5 [] =
        decodeExts [1, 5, 0, 0, 0, 0, 0, 0, 0, 0, 0, 0, 0, 0, 0, 0, 0, 0, 0, 0, 0, 4, 7, 7, 7, 7] 0 26 0 []) ∧
    (decodeExts [1, 5, 0, 0, 0, 0, 0, 0, 0, 0, 0, 0, 0, 0, 0, 0, 0, 0, 0, 0, 0, 4, 7, 7, 7, 7] 1 20 1 [] =
      decodeExts [1, 5, 0, 0, 0, 0, 0, 0, 0, 0, 0, 0, 0, 0, 0, 0, 0, 0, 0, 0, 0, 4, 7, 7, 7, 7] 0 26 0
        [{ ty := .SelectiveAck, data := [7, 7, 7, 7] }]) :=
  ⟨⟨by decide, by decide,
      (decode_skips_unknown _ 0 20 5 [] (by decide) (by decide) (by decide) (by decide)
          (by decide) (by decide)).1 (by decide)⟩,
    (decode_skips_unknown _ 0 20 1 [] (by decide) (by decide) (by decide) (by decide)
        (by decide) (by decide)).2 rfl⟩

/-- Every extension captured by the chain walk has data whose length is a
non-zero multiple of 4 and at most 252 (the length byte is one byte). -/
lemma decodeExts_data_valid (buf : List Nat) (hb : bytesOk buf) :
    ∀ (fuel idx kind : Nat) (acc es : List Extension) (idxF : Nat),
      (∀ e ∈ acc, e.data.length ≠ 0 ∧ e.data.length % 4 = 0 ∧ e.data.length ≤ 252) →
      decodeExts buf fuel idx kind acc = .ok (es, idxF) →
      ∀ e ∈ es, e.data.length ≠ 0 ∧ e.data.length % 4 = 0 ∧ e.data.length ≤ 252 := by
  intro fuel
  induction fuel with
  | zero =>
    intro idx kind acc es idxF hacc hdec
    simp only [decodeExts] at hdec
    split at hdec
    · cases hdec
    · simp only [Except.ok.injEq, Prod.mk.injEq] at hdec
      obtain ⟨rfl, rfl⟩ := hdec
      exact hacc
  | succ f ih =>
    intro idx kind acc es idxF hacc hdec
    simp only [decodeExts] at hdec
    split at hdec
    case isTrue hc =>
      split at hdec
      · cases hdec
      case isFalse hl2 =>
        split at hdec
        · cases hdec
        case isFalse hlen =>
          push_neg at hlen
          obtain ⟨hlen0, hlen4, hlenend⟩ := hlen
          refine ih _ _ _ _ _ ?hacc hdec
          intro e he
          by_cases hk : kind = ExtensionType.SelectiveAck.toNat
          · rw [if_pos hk] at he
            rcases List.mem_append.1 he with hmem | hmem
            · exact hacc e hmem
            · have hsingle : e = { ty := .SelectiveAck
                                   data := (buf.drop (idx + 2)).take (buf.getD (idx + 1) 0) } := by
                simpa using hmem
              subst hsingle
              have hlt : buf.getD (idx + 1) 0 < 256 :=
                bytesOk.getD_lt buf hb (idx + 1) (by omega)
              simp only [List.length_take, List.length_drop]
              constructor
              · omega
              constructor
              · omega
              · omega
          · rw [if_neg hk] at he
            exact hacc e he
    case isFalse hc =>
      split at hdec
      · cases hdec
      · simp only [Except.ok.injEq, Prod.mk.injEq] at hdec
        obtain ⟨rfl, rfl⟩ := hdec
        exact hacc

/-- C10: every extension of a packet produced by `Packet::decode` on a
byte buffer has data whose length is a non-zero multiple of 4 and at most
252 (the largest multiple of 4 representable in the one-byte length
field). -/
theorem decoded_extension_lengths_valid (buf : List Nat) (p : Packet)
    (hb : bytesOk buf) (hdec : Packet.decode buf = .ok p) :
    ∀ e ∈ p.extensions,
      e.data.length ≠ 0 ∧ e.data.length % 4 = 0 ∧ e.data.length ≤ 252 := by
  unfold Packet.decode at hdec
  split at hdec
  · cases hdec
  split at hdec
  · cases hdec
  split at hdec
  · cases hdec
  split at hdec
  · cases hdec
  case _ exts idx heq =>
    simp only [Except.ok.injEq] at hdec
    subst hdec
    exact decodeExts_data_valid buf hb _ _ _ [] exts idx (by simp) heq

/-- Header round trip: re-serialising a decoded header reproduces the
first 20 bytes of the buffer exactly. -/
lemma header_bytes_decode (buf : List Nat) (hb : bytesOk buf) (h20 : 20 ≤ buf.length) :
    (PacketHeader.decode buf).bytes = buf.take 20 := by
  have h0 := bytesOk.getD_lt buf hb 0 (by omega)
  have h1 := bytesOk.getD_lt buf hb 1 (by omega)
  have h2 := bytesOk.getD_lt buf hb 2 (by omega)
  have h3 := bytesOk.getD_lt buf hb 3 (by omega)
  have h4 := bytesOk.getD_lt buf hb 4 (by omega)
  have h5 := bytesOk.getD_lt buf hb 5 (by omega)
  have h6 := bytesOk.getD_lt buf hb 6 (by omega)
  have h7 := bytesOk.getD_lt buf hb 7 (by omega)
  have h8 := bytesOk.getD_lt buf hb 8 (by omega)
  have h9 := bytesOk.getD_lt buf hb 9 (by omega)
  have h10 := bytesOk.getD_lt buf hb 10 (by omega)
  have h11 := bytesOk.getD_lt buf hb 11 (by omega)
  have h12 := bytesOk.getD_lt buf hb 12 (by omega)
  have h13 := bytesOk.getD_lt buf hb 13 (by omega)
  have h14 := bytesOk.getD_lt buf hb 14 (by omega)
  have h15 := bytesOk.getD_lt buf hb 15 (by omega)
  have h16 := bytesOk.getD_lt buf hb 16 (by omega)
  have h17 := bytesOk.getD_lt buf hb 17 (by omega)
  have h18 := bytesOk.getD_lt buf hb 18 (by omega)
  have h19 := bytesOk.getD_lt buf hb 19 (by omega)
  rw [take_eq_map_range 20 buf h20]
  have hr : List.range 20 = [0, 1, 2, 3, 4, 5, 6, 7, 8, 9, 10, 11, 12, 13, 14, 15, 16, 17, 18, 19] := by
    decide
  rw [hr]
  simp only [List.map_cons, List.map_nil]
  simp only [PacketHeader.bytes, PacketHeader.decode, be16, be32, be16bytes, be32bytes,
    List.cons_append, List.nil_append]
  simp only [List.cons.injEq, and_true]
  omega

/-- Chain round trip: when the walk succeeds and every record it visited
had a recognised type, the captured extensions re-encode (via the
`Packet::bytes` chain loop) to exactly the consumed bytes
`buf[idx..idxF)`, and the kind the walk started with is the type of the
first captured extension (0 when none). -/
lemma decodeExts_encode (buf : List Nat) (hb : bytesOk buf) :
    ∀ (fuel idx kind : Nat) (acc es : List Extension) (idxF : Nat),
      buf.length ≤ idx + fuel →
      idx ≤ buf.length →
      decodeExts buf fuel idx kind acc = .ok (es, idxF) →
      allKnown buf fuel idx kind = true →
      ∃ newEs, es = acc ++ newEs ∧ idx ≤ idxF ∧ idxF ≤ buf.length ∧
        (buf.drop idx).take (idxF - idx) = extChainBytes newEs ∧
        headKind newEs = kind := by
  intro fuel
  induction fuel with
  | zero =>
    intro idx kind acc es idxF hfuel hle hdec _
    simp only [decodeExts] at hdec
    split at hdec
    · cases hdec
    case isFalse hk =>
      simp only [Except.ok.injEq, Prod.mk.injEq] at hdec
      obtain ⟨rfl, rfl⟩ := hdec
      refine ⟨[], by simp, le_refl _, hle, by simp [extChainBytes], ?notk0⟩
      simp only [headKind]
      omega
  | succ f ih =>
    intro idx kind acc es idxF hfuel hle hdec hknown
    simp only [decodeExts] at hdec
    simp only [allKnown] at hknown
    split at hdec
    case isFalse hc =>
      split at hdec
      · cases hdec
      case isFalse hk =>
        simp only [Except.ok.injEq, Prod.mk.injEq] at hdec
        obtain ⟨rfl, rfl⟩ := hdec
        refine ⟨[], by simp, le_refl _, hle, by simp [extChainBytes], ?notk1⟩
        simp only [headKind]
        omega
    case isTrue hc =>
      rw [if_pos hc] at hknown
      split at hdec
      · cases hdec
      case isFalse h2 =>
        rw [if_neg h2] at hknown
        split at hdec
        case isTrue h3 => cases hdec
        case isFalse h3 =>
          rw [if_neg h3] at hknown
          rw [Bool.and_eq_true, decide_eq_true_eq] at hknown
          obtain ⟨hkind, hknown2⟩ := hknown
          rw [if_pos hkind] at hdec
          push_neg at h3
          obtain ⟨hlen0, hlen4, hlenle⟩ := h3
          have hidx : idx < buf.length := hc.1
          have hidx1 : idx + 1 < buf.length := by omega
          have hlen256 : buf.getD (idx + 1) 0 < 256 := bytesOk.getD_lt buf hb (idx + 1) hidx1
          obtain ⟨newEs', rfl, hle1, hle2, hslice, hheadkind⟩ :=
            ih (idx + buf.getD (idx + 1) 0 + 2) (buf.getD idx 0)
              (acc ++ [{ ty := .SelectiveAck
                         data := (buf.drop (idx + 2)).take (buf.getD (idx + 1) 0) }])
              es idxF (by omega) (by omega) hdec hknown2
          refine ⟨{ ty := .SelectiveAck
                    data := (buf.drop (idx + 2)).take (buf.getD (idx + 1) 0) } :: newEs',
            by simp, by omega, hle2, ?slice, ?kindeq⟩
          case kindeq =>
            rw [hkind]
            rfl
          case slice =>
            rw [List.drop_eq_getElem_cons hidx, List.drop_eq_getElem_cons hidx1]
            have hsplit : idxF - idx = (idxF - (idx + 2)) + 1 + 1 := by omega
            rw [hsplit, List.take_succ_cons, List.take_succ_cons]
            have hsplit2 : idxF - (idx + 2) =
                buf.getD (idx + 1) 0 + (idxF - (idx + buf.getD (idx + 1) 0 + 2)) := by omega
            rw [hsplit2, List.take_add, List.drop_drop]
            have hsplit3 : idx + 2 + buf.getD (idx + 1) 0 = idx + buf.getD (idx + 1) 0 + 2 := by
              omega
            rw [hsplit3, hslice]
            simp only [extChainBytes, Extension.to_bytes, List.cons_append]
            congr 1
            · rw [hheadkind]
              exact (List.getD_eq_getElem buf 0 hidx).symm
            congr 1
            have hdatalen : ((buf.drop (idx + 2)).take (buf.getD (idx + 1) 0)).length =
                buf.getD (idx + 1) 0 := by
              simp only [List.length_take, List.length_drop]
              omega
            rw [hdatalen, Nat.mod_eq_of_lt hlen256]
            exact (List.getD_eq_getElem buf 0 hidx1).symm

/-- C1 (amended, restricted to chains whose every record type is
recognised): if `decode(buf)` succeeds with packet `p` and every
extension record visited by the chain walk has a recognised type, then
`bytes(p)` reproduces `buf` exactly and decoding it again yields `p`. -/
theorem decode_bytes_round_trip (buf : List Nat) (p : Packet)
    (hb : bytesOk buf)
    (hdec : Packet.decode buf = .ok p)
    (hknown : allKnown buf buf.length 20 (buf.getD 1 0) = true) :
    Packet.bytes p = buf ∧ Packet.decode (Packet.bytes p) = .ok p := by
  have hmain : Packet.bytes p = buf := by
    unfold Packet.decode at hdec
    split at hdec
    · cases hdec
    case isFalse h20 =>
      split at hdec
      · cases hdec
      split at hdec
      · cases hdec
      split at hdec
      · cases hdec
      case _ exts idx heq =>
        simp only [Except.ok.injEq] at hdec
        subst hdec
        obtain ⟨newEs, hacc, hle1, hle2, hslice, hkind⟩ :=
          decodeExts_encode buf hb buf.length 20 (buf.getD 1 0) [] exts idx
            (by omega) (by omega) heq hknown
        simp only [List.nil_append] at hacc
        subst hacc
        unfold Packet.bytes
        simp only
        rw [header_bytes_decode buf hb (by omega)]
        rw [← hslice]
        have htail : (buf.drop 20).take (idx - 20) ++ buf.drop idx = buf.drop 20 := by
          conv_rhs => rw [← List.take_append_drop (idx - 20) (buf.drop 20)]
          rw [List.drop_drop]
          have he : 20 + (idx - 20) = idx := by omega
          rw [he]
        rw [List.append_assoc, htail, List.take_append_drop]
  exact ⟨hmain, by rw [hmain]; exact hdec⟩

/-- The buffer of the C1 counterexample: a valid version-1 packet whose
single extension record has the unrecognised type 2. -/
def c1badbuf : List Nat :=
  [1, 2, 0, 0, 0, 0, 0, 0, 0, 0, 0, 0, 0, 0, 0, 0, 0, 0, 0, 0, 0, 4, 0, 0, 0, 0]

/-- The packet `Packet::decode` produces from `c1badbuf`: the unknown
record is skipped, so no extension is captured. -/
def c1badpkt : Packet :=
  { header := PacketHeader.mk 1 2 0 0 0 0 0 0, extensions := [], payload := [] }

/-- C1 (counterexample): decode succeeds on `c1badbuf`, but re-encoding
the resulting packet loses the skipped unknown record, so `bytes(p)`
differs from the input and even fails to decode back to `p` (the
extension byte 2 is still declared but no chain bytes follow). -/
theorem decode_bytes_round_trip_counterexample :
    Packet.decode c1badbuf = .ok c1badpkt ∧
      Packet.bytes c1badpkt ≠ c1badbuf ∧
      Packet.decode (Packet.bytes c1badpkt) ≠ .ok c1badpkt := by decide

/-- A well-formed buffer whose chain consists of one SelectiveAck record,
followed by a two-byte payload. -/
def c1goodbuf : List Nat :=
  [1, 1, 0, 0, 0, 0, 0, 0, 0, 0, 0, 0, 0, 0, 0, 0, 0, 0, 0, 0, 0, 4, 1, 2, 3, 4, 9, 9]

/-- The packet `Packet::decode` produces from `c1goodbuf`. -/
def c1goodpkt : Packet :=
  { header := PacketHeader.mk 1 1 0 0 0 0 0 0
    extensions := [{ ty := .SelectiveAck, data := [1, 2, 3, 4] }]
    payload := [9, 9] }

theorem decode_bytes_round_trip_witness :
    bytesOk c1goodbuf ∧
      Packet.decode c1goodbuf = .ok c1goodpkt ∧
      allKnown c1goodbuf c1goodbuf.length 20 (c1goodbuf.getD 1 0) = true ∧
      Packet.bytes c1goodpkt = c1goodbuf ∧
      Packet.decode (Packet.bytes c1goodpkt) = .ok c1goodpkt :=
  ⟨by decide, by decide, by decide,
    (decode_bytes_round_trip c1goodbuf c1goodpkt (by decide) (by decide) (by decide)).1,
    (decode_bytes_round_trip c1goodbuf c1goodpkt (by decide) (by decide) (by decide)).2⟩

/-- A buffer carrying one SelectiveAck extension of four zero bytes (the
with-extension test vector of the source). -/
def c10buf : List Nat :=
  [0x21, 0x01, 0x41, 0xa7, 0, 0, 0, 0, 0, 0,
   0, 0, 0, 0, 0x05, 0xdc, 0xab, 0x53, 0x3a, 0xf5, 0x00, 0x04, 0, 0, 0, 0]

/-- The packet `Packet::decode` produces from `c10buf`. -/
def c10pkt : Packet :=
  { header := PacketHeader.mk 0x21 1 16807 0 0 1500 43859 15093
    extensions := [{ ty := .SelectiveAck, data := [0, 0, 0, 0] }]
    payload := [] }

theorem decoded_extension_lengths_valid_witness :
    bytesOk c10buf ∧ Packet.decode c10buf = .ok c10pkt ∧
      ({ ty := .SelectiveAck, data := [0, 0, 0, 0] } : Extension) ∈ c10pkt.extensions ∧
      (([0, 0, 0, 0] : List Nat).length ≠ 0 ∧ ([0, 0, 0, 0] : List Nat).length % 4 = 0 ∧
        ([0, 0, 0, 0] : List Nat).length ≤ 252) :=
  ⟨by decide, by decide, by decide,
    decoded_extension_lengths_valid c10buf c10pkt (by decide) (by decide)
      { ty := .SelectiveAck, data := [0, 0, 0, 0] } (by decide)⟩
